import Mathlib

/-!
Shallow embedding of the wallet-manager transaction engine.

Sources embedded:
- `src/transaction.rs`: `Transaction`, `Amount`, `Client`, `TransactionId`, `Failure`.
- `src/wallet.rs`: `Balance`, `Wallet` and its operations `deposit`, `withdraw`,
  `dispute`, `settle_dispute`, `charge_back`.
- `src/wallet_manager.rs`: `WalletManager` with its `wallets` map and per-client
  `transaction_journal`, and the event loop `run`.

Modelling choices:
- `Client` (u16) and `TransactionId` (u32) are identifiers used only as map keys;
  they are embedded as `Nat`.
- `Amount` wraps an `f32` in the source; its values are embedded as rationals.
  Two arithmetic layers are embedded. The operations `Wallet.deposit`,
  `Wallet.dispute`, `Wallet.settle_dispute`, `Wallet.charge_back`,
  `Wallet.withdraw`, `WalletManager.applyTransaction` and `WalletManager.run`
  compute with exact rational arithmetic — the spec's fixed-point reading of
  Amount. Their `F`-suffixed counterparts (`Wallet.depositF` ...
  `WalletManager.runF`) compute with the source's `f32` arithmetic: each
  addition and subtraction result passes through `fl`, IEEE-754 binary32
  rounding (round to nearest, ties to even; unbounded exponent, which agrees
  with `f32` away from overflow and subnormals — every stream considered here
  stays far inside that range, and `f32` comparison is exact comparison of the
  represented values). Results proved for the exact layer and not the `f32`
  layer are marked as such: rounding makes some spec invariants fail in the
  program on legal inputs.
- The `HashMap`/`DashMap` containers are embedded as association lists with a
  replacing `insert`, i.e. as finite maps; `lookupA`/`insertA` mirror
  `get`/`insert`, and `entry(k).or_insert_with(d)` is `(lookupA k m).getD d`
  followed by `insertA`.
- `wallet_manager.rs::run` receives events from an in-order channel and sends
  failures on a channel whose receiver may have been dropped. The event stream
  is embedded as a `List Transaction`; the failure sink as a `sinkOpen : Bool`
  (the tokio unbounded `send` fails exactly when the receiver is gone, and the
  source then executes `break`). The failures actually delivered are returned
  as a list.
-/

namespace WalletMock

/-- Client identifier (`Client(u16)` in `transaction.rs`), used only as a map key. -/
abbrev Client := Nat

/-- Transaction identifier (`TransactionId(u32)` in `transaction.rs`), used only as a map key. -/
abbrev TransactionId := Nat

/-- Monetary amount (`Amount(f32)` in `transaction.rs`); values are embedded as
rationals, the `f32` arithmetic separately via `fl` (see `addF`, `subF`). -/
abbrev Amount := ℚ

/-- Finite-map lookup on an association list (`HashMap::get` / `DashMap::get`). -/
def lookupA {β : Type} (k : Nat) : List (Nat × β) → Option β
  | [] => none
  | (k', v) :: rest => if k' = k then some v else lookupA k rest

/-- Remove every binding of key `k` (helper for the replacing insert). -/
def eraseA {β : Type} (k : Nat) : List (Nat × β) → List (Nat × β)
  | [] => []
  | (k', v) :: rest => if k' = k then eraseA k rest else (k', v) :: eraseA k rest

/-- Finite-map insert; `HashMap::insert` replaces any existing binding of the key. -/
def insertA {β : Type} (k : Nat) (v : β) (l : List (Nat × β)) : List (Nat × β) :=
  (k, v) :: eraseA k l

/-- Sum of the amounts stored in an `open_disputes` map. -/
def sumA (l : List (TransactionId × Amount)) : Amount :=
  (l.map Prod.snd).sum

/-- Failure record (`transaction.rs::Failure`). -/
structure Failure where
  client : Client
  tx : TransactionId
  reason : String
deriving DecidableEq

/-- Reason string of `Failure::insufficient_funds`. -/
def msgInsufficientFunds : String := "Insufficient funds"

/-- Reason string of `Failure::no_wallet`. -/
def msgNoWallet : String := "No wallet found for client"

/-- Reason string of the `settle_dispute` failure in `wallet.rs`. -/
def msgSettleNotFound : String := "Disputed transaction not found for settlement!"

/-- Reason string of the `charge_back` failure in `wallet.rs`. -/
def msgChargeBackNotFound : String := "Disputed transaction not found for charge back!"

/-- Reason string of the dispute-of-a-withdrawal failure in `wallet_manager.rs`. -/
def msgCantDisputeWithdraw : String := "Can\x27t dispute a withdraw!"

/-- Reason string of the dispute-target-not-found failure in `wallet_manager.rs`. -/
def msgDisputeTxNotFound : String := "Transaction to dispute was not found!"

/-- `Failure::insufficient_funds`. -/
def Failure.insufficient_funds (c : Client) (t : TransactionId) : Failure :=
  ⟨c, t, msgInsufficientFunds⟩

/-- `Failure::no_wallet`. -/
def Failure.no_wallet (c : Client) (t : TransactionId) : Failure :=
  ⟨c, t, msgNoWallet⟩

/-- Transaction event (`transaction.rs::Transaction`). -/
inductive Transaction where
  | Deposit (client : Client) (tx_id : TransactionId) (amount : Amount)
  | Withdrawal (client : Client) (tx_id : TransactionId) (amount : Amount)
  | Dispute (client : Client) (tx_id : TransactionId)
  | Resolve (client : Client) (tx_id : TransactionId)
  | ChargeBack (client : Client) (tx_id : TransactionId)
deriving DecidableEq

/-- Balance triple (`wallet.rs::Balance`). -/
structure Balance where
  available : Amount
  held : Amount
  total : Amount
deriving DecidableEq

/-- `Balance::new`: all three fields zero. -/
def Balance.new : Balance := ⟨0, 0, 0⟩

/-- Per-client account (`wallet.rs::Wallet`). -/
structure Wallet where
  client : Client
  balance : Balance
  locked : Bool
  open_disputes : List (TransactionId × Amount)
deriving DecidableEq

/-- `Wallet::new`. -/
def Wallet.new (c : Client) : Wallet :=
  { client := c, balance := Balance.new, locked := false, open_disputes := [] }

/-- `Wallet::deposit`: `available += amount; total += amount` (the tx id is unused).
Arithmetic idealized as exact; `Wallet.depositF` is the f32-faithful version. -/
def Wallet.deposit (w : Wallet) (_tx : TransactionId) (amount : Amount) : Wallet :=
  { w with
    balance := { w.balance with
                 available := w.balance.available + amount
                 total := w.balance.total + amount } }

/-- `Wallet::dispute`: `available -= amount; held += amount;
open_disputes.insert(tx, amount)`. No precondition is checked. Arithmetic
idealized as exact; `Wallet.disputeF` is the f32-faithful version. -/
def Wallet.dispute (w : Wallet) (tx : TransactionId) (amount : Amount) : Wallet :=
  { w with
    balance := { w.balance with
                 available := w.balance.available - amount
                 held := w.balance.held + amount }
    open_disputes := insertA tx amount w.open_disputes }

/-- `Wallet::settle_dispute`: if `tx` is in `open_disputes`, `held -= amount;
available += amount`; the entry is not removed. Otherwise a failure.
Arithmetic idealized as exact; `Wallet.settle_disputeF` is the f32 version. -/
def Wallet.settle_dispute (w : Wallet) (tx : TransactionId) : Except Failure Wallet :=
  match lookupA tx w.open_disputes with
  | some a => .ok { w with
      balance := { w.balance with
                   held := w.balance.held - a
                   available := w.balance.available + a } }
  | none => .error ⟨w.client, tx, msgSettleNotFound⟩

/-- `Wallet::charge_back`: if `tx` is in `open_disputes`, `held -= amount;
total -= amount; locked = true`; the entry is not removed. Otherwise a failure.
Arithmetic idealized as exact; `Wallet.charge_backF` is the f32 version. -/
def Wallet.charge_back (w : Wallet) (tx : TransactionId) : Except Failure Wallet :=
  match lookupA tx w.open_disputes with
  | some a => .ok { w with
      balance := { w.balance with
                   held := w.balance.held - a
                   total := w.balance.total - a }
      locked := true }
  | none => .error ⟨w.client, tx, msgChargeBackNotFound⟩

/-- `Wallet::withdraw`: succeeds iff `available >= amount`, then
`available -= amount; total -= amount`; otherwise InsufficientFunds.
Arithmetic idealized as exact; `Wallet.withdrawF` is the f32 version. -/
def Wallet.withdraw (w : Wallet) (tx : TransactionId) (amount : Amount) : Except Failure Wallet :=
  if w.balance.available ≥ amount then
    .ok { w with
      balance := { w.balance with
                   available := w.balance.available - amount
                   total := w.balance.total - amount } }
  else
    .error (Failure.insufficient_funds w.client tx)

/-- Engine state (`wallet_manager.rs::WalletManager`). -/
structure WalletManager where
  wallets : List (Client × Wallet)
  transaction_journal : List (Client × List (TransactionId × Transaction))
deriving DecidableEq

/-- `WalletManager::init`: both maps empty. -/
def WalletManager.init : WalletManager :=
  { wallets := [], transaction_journal := [] }

/-- One iteration of the `match transaction` arm of `WalletManager::run`: the new
state together with the failure produced, if any. Every failing arm leaves the
state untouched. -/
def WalletManager.applyTransaction (m : WalletManager) :
    Transaction → WalletManager × Option Failure
  | .Deposit client tx_id amount =>
    let w := ((lookupA client m.wallets).getD (Wallet.new client)).deposit tx_id amount
    let j := insertA tx_id (.Deposit client tx_id amount)
      ((lookupA client m.transaction_journal).getD [])
    ({ wallets := insertA client w m.wallets,
       transaction_journal := insertA client j m.transaction_journal }, none)
  | .Withdrawal client tx_id amount =>
    match lookupA client m.wallets with
    | some w =>
      match w.withdraw tx_id amount with
      | .ok w' =>
        let j := insertA tx_id (.Withdrawal client tx_id amount)
          ((lookupA client m.transaction_journal).getD [])
        ({ wallets := insertA client w' m.wallets,
           transaction_journal := insertA client j m.transaction_journal }, none)
      | .error f => (m, some f)
    | none => (m, some (Failure.no_wallet client tx_id))
  | .Dispute client tx_id =>
    match (lookupA client m.transaction_journal).bind (lookupA tx_id) with
    | some (.Deposit _ _ amount) =>
      match lookupA client m.wallets with
      | some w =>
        ({ m with wallets := insertA client (w.dispute tx_id amount) m.wallets }, none)
      | none => (m, some (Failure.no_wallet client tx_id))
    | some (.Withdrawal _ _ _) => (m, some ⟨client, tx_id, msgCantDisputeWithdraw⟩)
    | _ => (m, some ⟨client, tx_id, msgDisputeTxNotFound⟩)
  | .Resolve client tx_id =>
    match lookupA client m.wallets with
    | some w =>
      match w.settle_dispute tx_id with
      | .ok w' => ({ m with wallets := insertA client w' m.wallets }, none)
      | .error f => (m, some f)
    | none => (m, some (Failure.no_wallet client tx_id))
  | .ChargeBack client tx_id =>
    match lookupA client m.wallets with
    | some w =>
      match w.charge_back tx_id with
      | .ok w' => ({ m with wallets := insertA client w' m.wallets }, none)
      | .error f => (m, some f)
    | none => (m, some (Failure.no_wallet client tx_id))

/-- The `while let` loop of `WalletManager::run`. `sinkOpen` tells whether the
failure channel still has its receiver: when a failure must be sent and
`sinkOpen = false`, the `send` fails and the source executes `break`, abandoning
the remaining events. The returned list holds the failures actually delivered. -/
def WalletManager.run :
    WalletManager → List Transaction → Bool → WalletManager × List Failure
  | m, [], _ => (m, [])
  | m, e :: rest, sinkOpen =>
    let res := m.applyTransaction e
    match res.2 with
    | none => WalletManager.run res.1 rest sinkOpen
    | some f =>
      if sinkOpen then
        let r := WalletManager.run res.1 rest sinkOpen
        (r.1, f :: r.2)
      else
        (res.1, [])

/-- Modelled from the spec: the event loop as the spec describes it, processing
every event to exhaustion of the input and reporting every failure, with no
dependence on the failure sink. Used only to compare `WalletManager.run`
against the spec's description. -/
def WalletManager.runToExhaustion :
    WalletManager → List Transaction → WalletManager × List Failure
  | m, [] => (m, [])
  | m, e :: rest =>
    let res := m.applyTransaction e
    let r := WalletManager.runToExhaustion res.1 rest
    match res.2 with
    | none => r
    | some f => (r.1, f :: r.2)

/-- Successful-branch result of `Wallet::settle_dispute` on disputed amount `a`:
`held -= a; available += a`, everything else (including `open_disputes`) kept. -/
def settleOk (w : Wallet) (a : Amount) : Wallet :=
  { w with
    balance := { w.balance with
                 held := w.balance.held - a
                 available := w.balance.available + a } }

/-- Successful-branch result of `Wallet::charge_back` on disputed amount `a`:
`held -= a; total -= a; locked = true`, everything else kept. -/
def chargeBackOk (w : Wallet) (a : Amount) : Wallet :=
  { w with
    balance := { w.balance with
                 held := w.balance.held - a
                 total := w.balance.total - a }
    locked := true }

/-- Every wallet in the manager satisfies `total = available + held`. -/
def TotalInvariant (m : WalletManager) : Prop :=
  ∀ c w, lookupA c m.wallets = some w →
    w.balance.total = w.balance.available + w.balance.held

/-- A client having journal entries always has a wallet (deposits create the
wallet, withdrawals are journaled only when the wallet exists, and wallets are
never removed). Stated in contrapositive form. -/
def JournalInvariant (m : WalletManager) : Prop :=
  ∀ c, lookupA c m.wallets = none → lookupA c m.transaction_journal = none

/-- The (client, tx (id)) pairs of the Dispute events of a stream, in order. -/
def disputeKeys : List Transaction → List (Nat × Nat)
  | [] => []
  | .Dispute c t :: rest => (c, t) :: disputeKeys rest
  | _ :: rest => disputeKeys rest

/-- Whether a stream contains a Resolve or ChargeBack event. -/
def hasSettle : List Transaction → Bool
  | [] => false
  | .Resolve _ _ :: _ => true
  | .ChargeBack _ _ :: _ => true
  | _ :: rest => hasSettle rest

/-- Every wallet's held balance is the sum of its `open_disputes` amounts, and no
transaction already recorded in `open_disputes` is disputed again by a pending
event of `S` (the pending dispute keys). -/
def HeldInvariant (S : List (Nat × Nat)) (m : WalletManager) : Prop :=
  ∀ c w, lookupA c m.wallets = some w →
    w.balance.held = sumA w.open_disputes ∧
    ∀ t a, lookupA t w.open_disputes = some a → (c, t) ∉ S

/-! The f32 arithmetic layer: IEEE-754 binary32 rounding and the engine
operations computing with it, faithful to the source's `f32` values. -/

/-- Round to the nearest integer, ties to even (the IEEE-754 tie rule). -/
def roundEven (r : ℚ) : ℤ :=
  if r - ⌊r⌋ < 1/2 then ⌊r⌋
  else if 1/2 < r - ⌊r⌋ then ⌊r⌋ + 1
  else if ⌊r⌋ % 2 = 0 then ⌊r⌋ else ⌊r⌋ + 1

/-- Round a positive rational to 24 significant binary digits (round to
nearest, ties to even): the scale `2 ^ (Int.log 2 y - 23)` places the rounded
significand in `[2 ^ 23, 2 ^ 24]`. -/
def flAux (y : ℚ) : ℚ :=
  (roundEven (y / 2 ^ (Int.log 2 y - 23)) : ℚ) * 2 ^ (Int.log 2 y - 23)

/-- IEEE-754 binary32 rounding of an exact result: round to nearest, ties to
even, with unbounded exponent — it agrees with Rust `f32` arithmetic away from
overflow and subnormals, a range every value in this development stays far
inside. -/
def fl (x : ℚ) : ℚ :=
  if x = 0 then 0
  else if x < 0 then -flAux (-x)
  else flAux x

/-- `f32` addition: the exact sum, rounded. -/
def addF (a b : ℚ) : ℚ := fl (a + b)

/-- `f32` subtraction: the exact difference, rounded. -/
def subF (a b : ℚ) : ℚ := fl (a - b)

/-- `Wallet::deposit` with the source's `f32` arithmetic. -/
def Wallet.depositF (w : Wallet) (_tx : TransactionId) (amount : Amount) : Wallet :=
  { w with
    balance := { w.balance with
                 available := addF w.balance.available amount
                 total := addF w.balance.total amount } }

/-- `Wallet::dispute` with the source's `f32` arithmetic. -/
def Wallet.disputeF (w : Wallet) (tx : TransactionId) (amount : Amount) : Wallet :=
  { w with
    balance := { w.balance with
                 available := subF w.balance.available amount
                 held := addF w.balance.held amount }
    open_disputes := insertA tx amount w.open_disputes }

/-- `Wallet::settle_dispute` with the source's `f32` arithmetic. -/
def Wallet.settle_disputeF (w : Wallet) (tx : TransactionId) : Except Failure Wallet :=
  match lookupA tx w.open_disputes with
  | some a => .ok { w with
      balance := { w.balance with
                   held := subF w.balance.held a
                   available := addF w.balance.available a } }
  | none => .error ⟨w.client, tx, msgSettleNotFound⟩

/-- `Wallet::charge_back` with the source's `f32` arithmetic. -/
def Wallet.charge_backF (w : Wallet) (tx : TransactionId) : Except Failure Wallet :=
  match lookupA tx w.open_disputes with
  | some a => .ok { w with
      balance := { w.balance with
                   held := subF w.balance.held a
                   total := subF w.balance.total a }
      locked := true }
  | none => .error ⟨w.client, tx, msgChargeBackNotFound⟩

/-- `Wallet::withdraw` with the source's `f32` arithmetic (the comparison of
stored `f32` values is exact order comparison of the represented rationals). -/
def Wallet.withdrawF (w : Wallet) (tx : TransactionId) (amount : Amount) : Except Failure Wallet :=
  if w.balance.available ≥ amount then
    .ok { w with
      balance := { w.balance with
                   available := subF w.balance.available amount
                   total := subF w.balance.total amount } }
  else
    .error (Failure.insufficient_funds w.client tx)

/-- The `match transaction` arm of `WalletManager::run` with `f32` arithmetic
(same structure as `WalletManager.applyTransaction`). -/
def WalletManager.applyTransactionF (m : WalletManager) :
    Transaction → WalletManager × Option Failure
  | .Deposit client tx_id amount =>
    let w := ((lookupA client m.wallets).getD (Wallet.new client)).depositF tx_id amount
    let j := insertA tx_id (.Deposit client tx_id amount)
      ((lookupA client m.transaction_journal).getD [])
    ({ wallets := insertA client w m.wallets,
       transaction_journal := insertA client j m.transaction_journal }, none)
  | .Withdrawal client tx_id amount =>
    match lookupA client m.wallets with
    | some w =>
      match w.withdrawF tx_id amount with
      | .ok w' =>
        let j := insertA tx_id (.Withdrawal client tx_id amount)
          ((lookupA client m.transaction_journal).getD [])
        ({ wallets := insertA client w' m.wallets,
           transaction_journal := insertA client j m.transaction_journal }, none)
      | .error f => (m, some f)
    | none => (m, some (Failure.no_wallet client tx_id))
  | .Dispute client tx_id =>
    match (lookupA client m.transaction_journal).bind (lookupA tx_id) with
    | some (.Deposit _ _ amount) =>
      match lookupA client m.wallets with
      | some w =>
        ({ m with wallets := insertA client (w.disputeF tx_id amount) m.wallets }, none)
      | none => (m, some (Failure.no_wallet client tx_id))
    | some (.Withdrawal _ _ _) => (m, some ⟨client, tx_id, msgCantDisputeWithdraw⟩)
    | _ => (m, some ⟨client, tx_id, msgDisputeTxNotFound⟩)
  | .Resolve client tx_id =>
    match lookupA client m.wallets with
    | some w =>
      match w.settle_disputeF tx_id with
      | .ok w' => ({ m with wallets := insertA client w' m.wallets }, none)
      | .error f => (m, some f)
    | none => (m, some (Failure.no_wallet client tx_id))
  | .ChargeBack client tx_id =>
    match lookupA client m.wallets with
    | some w =>
      match w.charge_backF tx_id with
      | .ok w' => ({ m with wallets := insertA client w' m.wallets }, none)
      | .error f => (m, some f)
    | none => (m, some (Failure.no_wallet client tx_id))

/-- The `while let` loop of `WalletManager::run` with `f32` arithmetic (same
control flow as `WalletManager.run`, including the `break` on a failed send). -/
def WalletManager.runF :
    WalletManager → List Transaction → Bool → WalletManager × List Failure
  | m, [], _ => (m, [])
  | m, e :: rest, sinkOpen =>
    let res := m.applyTransactionF e
    match res.2 with
    | none => WalletManager.runF res.1 rest sinkOpen
    | some f =>
      if sinkOpen then
        let r := WalletManager.runF res.1 rest sinkOpen
        (r.1, f :: r.2)
      else
        (res.1, [])

/-- Sum of the amounts in an `open_disputes` map computed in `f32` arithmetic,
oldest entry first (entries are consed to the front, so the fold recurses to
the tail first) — the order in which the program's `held` accumulates them. -/
def sumF : List (TransactionId × Amount) → Amount
  | [] => 0
  | (_, a) :: l => addF (sumF l) a

/-- f32 counterpart of `HeldInvariant`: every wallet's held balance equals the
f32 sum of its `open_disputes` amounts, and no recorded dispute key is disputed
again by a pending event of `S`. -/
def HeldInvariantF (S : List (Nat × Nat)) (m : WalletManager) : Prop :=
  ∀ c w, lookupA c m.wallets = some w →
    w.balance.held = sumF w.open_disputes ∧
    ∀ t a, lookupA t w.open_disputes = some a → (c, t) ∉ S

/-! Basic lemmas about the association-list maps. -/

theorem lookupA_eraseA {β : Type} (k k' : Nat) (l : List (Nat × β)) :
    lookupA k (eraseA k' l) = if k' = k then none else lookupA k l := by
  induction l with
  | nil => simp [eraseA, lookupA]
  | cons p rest ih =>
    rcases p with ⟨a, b⟩
    by_cases h1 : a = k'
    · subst h1
      by_cases h2 : a = k
      · subst h2; simp [eraseA, lookupA, ih]
      · simp [eraseA, lookupA, h2, ih]
    · by_cases h2 : a = k
      · subst h2
        have h1' : ¬k' = a := fun hh => h1 hh.symm
        simp [eraseA, lookupA, h1, h1', ih]
      · simp [eraseA, lookupA, h1, h2, ih]

theorem lookupA_insertA {β : Type} (k k' : Nat) (v : β) (l : List (Nat × β)) :
    lookupA k (insertA k' v l) = if k' = k then some v else lookupA k l := by
  by_cases h : k' = k <;> simp [insertA, lookupA, lookupA_eraseA, h]

theorem eraseA_eq_self {β : Type} (k : Nat) (l : List (Nat × β))
    (h : lookupA k l = none) : eraseA k l = l := by
  induction l with
  | nil => simp [eraseA]
  | cons p rest ih =>
    rcases p with ⟨a, b⟩
    by_cases h1 : a = k
    · subst h1; simp [lookupA] at h
    · simp only [lookupA, if_neg h1] at h
      simp [eraseA, h1, ih h]

theorem sumA_insertA_fresh (t : TransactionId) (a : Amount)
    (l : List (TransactionId × Amount)) (h : lookupA t l = none) :
    sumA (insertA t a l) = a + sumA l := by
  simp [insertA, sumA, eraseA_eq_self t l h]

theorem totalInvariant_init : TotalInvariant WalletManager.init := by
  intro c w hw
  simp [WalletManager.init, lookupA] at hw

theorem totalInvariant_applyTransaction (m : WalletManager) (t : Transaction)
    (h : TotalInvariant m) : TotalInvariant (m.applyTransaction t).1 := by
  cases t with
  | Deposit client tx_id amount =>
    intro c w hw
    simp only [WalletManager.applyTransaction] at hw
    simp only [lookupA_insertA] at hw
    by_cases hc : client = c
    · rw [if_pos hc] at hw
      cases hbase : lookupA client m.wallets with
      | none =>
        rw [hbase] at hw
        simp only [Option.getD, Option.some.injEq] at hw
        subst hw
        simp [Wallet.deposit, Wallet.new, Balance.new]
      | some w0 =>
        rw [hbase] at hw
        simp only [Option.getD, Option.some.injEq] at hw
        subst hw
        have h0 := h client w0 hbase
        simp [Wallet.deposit]
        linarith
    · rw [if_neg hc] at hw
      exact h c w hw
  | Withdrawal client tx_id amount =>
    intro c w hw
    simp only [WalletManager.applyTransaction] at hw
    cases hbase : lookupA client m.wallets with
    | none =>
      rw [hbase] at hw
      exact h c w (by simpa using hw)
    | some w0 =>
      rw [hbase] at hw
      by_cases hge : w0.balance.available ≥ amount
      · simp only [Wallet.withdraw, if_pos hge] at hw
        simp only [lookupA_insertA] at hw
        by_cases hc : client = c
        · rw [if_pos hc] at hw
          simp only [Option.some.injEq] at hw
          subst hw
          have h0 := h client w0 hbase
          simp
          linarith
        · rw [if_neg hc] at hw
          exact h c w hw
      · simp only [Wallet.withdraw, if_neg hge] at hw
        exact h c w (by simpa using hw)
  | Dispute client tx_id =>
    intro c w hw
    simp only [WalletManager.applyTransaction] at hw
    cases hj : (lookupA client m.transaction_journal).bind (lookupA tx_id) with
    | none =>
      rw [hj] at hw
      exact h c w (by simpa using hw)
    | some tj =>
      rw [hj] at hw
      cases tj with
      | Deposit c' t' amount =>
        cases hbase : lookupA client m.wallets with
        | none =>
          rw [hbase] at hw
          exact h c w (by simpa using hw)
        | some w0 =>
          rw [hbase] at hw
          simp only [lookupA_insertA] at hw
          by_cases hc : client = c
          · rw [if_pos hc] at hw
            simp only [Option.some.injEq] at hw
            subst hw
            have h0 := h client w0 hbase
            simp [Wallet.dispute]
            linarith
          · rw [if_neg hc] at hw
            exact h c w hw
      | Withdrawal c' t' amount => exact h c w (by simpa using hw)
      | Dispute c' t' => exact h c w (by simpa using hw)
      | Resolve c' t' => exact h c w (by simpa using hw)
      | ChargeBack c' t' => exact h c w (by simpa using hw)
  | Resolve client tx_id =>
    intro c w hw
    simp only [WalletManager.applyTransaction] at hw
    cases hbase : lookupA client m.wallets with
    | none =>
      rw [hbase] at hw
      exact h c w (by simpa using hw)
    | some w0 =>
      rw [hbase] at hw
      cases hd : lookupA tx_id w0.open_disputes with
      | none =>
        simp only [Wallet.settle_dispute, hd] at hw
        exact h c w (by simpa using hw)
      | some a =>
        simp only [Wallet.settle_dispute, hd] at hw
        simp only [lookupA_insertA] at hw
        by_cases hc : client = c
        · rw [if_pos hc] at hw
          simp only [Option.some.injEq] at hw
          subst hw
          have h0 := h client w0 hbase
          simp
          linarith
        · rw [if_neg hc] at hw
          exact h c w hw
  | ChargeBack client tx_id =>
    intro c w hw
    simp only [WalletManager.applyTransaction] at hw
    cases hbase : lookupA client m.wallets with
    | none =>
      rw [hbase] at hw
      exact h c w (by simpa using hw)
    | some w0 =>
      rw [hbase] at hw
      cases hd : lookupA tx_id w0.open_disputes with
      | none =>
        simp only [Wallet.charge_back, hd] at hw
        exact h c w (by simpa using hw)
      | some a =>
        simp only [Wallet.charge_back, hd] at hw
        simp only [lookupA_insertA] at hw
        by_cases hc : client = c
        · rw [if_pos hc] at hw
          simp only [Option.some.injEq] at hw
          subst hw
          have h0 := h client w0 hbase
          simp
          linarith
        · rw [if_neg hc] at hw
          exact h c w hw

theorem totalInvariant_run (evs : List Transaction) :
    ∀ (m : WalletManager) (sink : Bool), TotalInvariant m →
      TotalInvariant (WalletManager.run m evs sink).1 := by
  induction evs with
  | nil => intro m sink h; simpa [WalletManager.run] using h
  | cons e rest ih =>
    intro m sink h
    have hstep := totalInvariant_applyTransaction m e h
    simp only [WalletManager.run]
    split
    · exact ih _ _ hstep
    · split
      · simpa using ih _ _ hstep
      · simpa using hstep

/-- Exact-arithmetic invariant: under the spec's fixed-point (exact) reading of
Amount, `total = available + held` holds for every account after every applied
event — the event-loop algebra preserves the invariant. (Every prefix of a
stream is itself a stream, so quantifying over all streams covers the state
after each applied event.) The program's f32 rounding breaks this on legal
inputs: see `f32_run_total_ne_available_add_held`. -/
theorem run_total_eq_available_add_held (evs : List Transaction) (sink : Bool)
    (c : Client) (w : Wallet)
    (h : lookupA c ((WalletManager.run WalletManager.init evs sink).1.wallets) = some w) :
    w.balance.total = w.balance.available + w.balance.held :=
  totalInvariant_run evs WalletManager.init sink totalInvariant_init c w h

/-- Witness for the exact-arithmetic invariant: deposit(1,1,100); dispute(1,1). -/
theorem run_total_eq_available_add_held_witness :
    lookupA 1 ((WalletManager.run WalletManager.init
        [.Deposit 1 1 100, .Dispute 1 1] true).1.wallets)
      = some (⟨1, ⟨0, 100, 100⟩, false, [(1, 100)]⟩ : Wallet) ∧
    (⟨1, ⟨0, 100, 100⟩, false, [(1, 100)]⟩ : Wallet).balance.total
      = (⟨1, ⟨0, 100, 100⟩, false, [(1, 100)]⟩ : Wallet).balance.available
        + (⟨1, ⟨0, 100, 100⟩, false, [(1, 100)]⟩ : Wallet).balance.held := by
  have h : lookupA 1 ((WalletManager.run WalletManager.init
      [.Deposit 1 1 100, .Dispute 1 1] true).1.wallets)
      = some (⟨1, ⟨0, 100, 100⟩, false, [(1, 100)]⟩ : Wallet) := by
    norm_num [WalletManager.run, WalletManager.applyTransaction, WalletManager.init,
      Wallet.new, Balance.new, Wallet.deposit, Wallet.dispute, lookupA, insertA, eraseA]
  exact ⟨h, run_total_eq_available_add_held _ _ _ _ h⟩

/-- C6 (amended): as long as the failure sink is available, the engine processes
every event to exhaustion, reporting each per-event failure on the side channel
and continuing with the remaining events. -/
theorem run_open_sink_processes_all_events (evs : List Transaction) :
    ∀ m : WalletManager, WalletManager.run m evs true = WalletManager.runToExhaustion m evs := by
  induction evs with
  | nil => intro m; simp [WalletManager.run, WalletManager.runToExhaustion]
  | cons e rest ih =>
    intro m
    cases hf : (m.applyTransaction e).2 with
    | none => simp [WalletManager.run, WalletManager.runToExhaustion, hf, ih]
    | some f => simp [WalletManager.run, WalletManager.runToExhaustion, hf, ih]

/-- Counterexample to C6 as stated: with the failure sink gone, the failed send
of the withdrawal's NoWallet failure executes `break`, so the following deposit
is never applied (no wallet is ever created); with the sink open the same stream
does create and fund the wallet. -/
theorem closed_sink_stops_processing :
    (WalletManager.run WalletManager.init
        [.Withdrawal 1 1 50, .Deposit 1 2 100] false).1.wallets = [] ∧
    lookupA 1 ((WalletManager.run WalletManager.init
        [.Withdrawal 1 1 50, .Deposit 1 2 100] true).1.wallets)
      = some (⟨1, ⟨100, 0, 100⟩, false, []⟩ : Wallet) := by
  constructor <;>
    norm_num [WalletManager.run, WalletManager.applyTransaction, WalletManager.init,
      Wallet.new, Balance.new, Wallet.deposit, Wallet.withdraw, Failure.no_wallet,
      lookupA, insertA, eraseA]

/-- C3: resolving or charging back a dispute does not remove the `open_disputes`
entry, so a second resolve (resp. chargeback) of the same tx (id) succeeds and
applies its balance changes a second time. -/
theorem settle_and_charge_back_leave_entry_and_double_apply
    (w : Wallet) (tx : TransactionId) (a : Amount)
    (h : lookupA tx w.open_disputes = some a) :
    w.settle_dispute tx = .ok (settleOk w a) ∧
    lookupA tx (settleOk w a).open_disputes = some a ∧
    (settleOk w a).settle_dispute tx = .ok (settleOk (settleOk w a) a) ∧
    (settleOk (settleOk w a) a).balance.available = w.balance.available + a + a ∧
    (settleOk (settleOk w a) a).balance.held = w.balance.held - a - a ∧
    w.charge_back tx = .ok (chargeBackOk w a) ∧
    lookupA tx (chargeBackOk w a).open_disputes = some a ∧
    (chargeBackOk w a).charge_back tx = .ok (chargeBackOk (chargeBackOk w a) a) ∧
    (chargeBackOk (chargeBackOk w a) a).balance.total = w.balance.total - a - a ∧
    (chargeBackOk (chargeBackOk w a) a).balance.held = w.balance.held - a - a := by
  refine ⟨?_, ?_, ?_, ?_, ?_, ?_, ?_, ?_, ?_, ?_⟩ <;>
    simp [Wallet.settle_dispute, Wallet.charge_back, settleOk, chargeBackOk, h]

/-- Witness for C3: a wallet with an open dispute on tx 1 for amount 100. -/
theorem settle_and_charge_back_double_apply_witness :
    lookupA 1 (⟨1, ⟨0, 100, 100⟩, false, [(1, 100)]⟩ : Wallet).open_disputes = some 100 ∧
    (settleOk (settleOk (⟨1, ⟨0, 100, 100⟩, false, [(1, 100)]⟩ : Wallet) 100) 100).balance.available
      = (⟨1, ⟨0, 100, 100⟩, false, [(1, 100)]⟩ : Wallet).balance.available + 100 + 100 := by
  have h : lookupA 1 (⟨1, ⟨0, 100, 100⟩, false, [(1, 100)]⟩ : Wallet).open_disputes
      = some 100 := by simp [lookupA]
  exact ⟨h, (settle_and_charge_back_leave_entry_and_double_apply _ 1 100 h).2.2.2.1⟩

/-- C7: for every account with tx (id) in `open_disputes`, `charge_back` decreases
held and total by the disputed amount, leaves available unchanged and sets
`locked = true`; and the scenario deposit(1,1,100); dispute(1,1);
chargeback(1,1) ends with available = 0, held = 0, total = 0, locked = true. -/
theorem charge_back_effect_and_scenario :
    (∀ (w : Wallet) (tx : TransactionId) (a : Amount),
      lookupA tx w.open_disputes = some a →
      ∃ w', w.charge_back tx = .ok w' ∧
        w'.balance.held = w.balance.held - a ∧
        w'.balance.total = w.balance.total - a ∧
        w'.balance.available = w.balance.available ∧
        w'.locked = true) ∧
    (WalletManager.run WalletManager.init
        [.Deposit 1 1 100, .Dispute 1 1, .ChargeBack 1 1] true).1.wallets
      = [(1, ⟨1, ⟨0, 0, 0⟩, true, [(1, 100)]⟩)] := by
  constructor
  · intro w tx a h
    refine ⟨chargeBackOk w a, ?_, ?_, ?_, ?_, ?_⟩ <;>
      simp [Wallet.charge_back, chargeBackOk, h]
  · norm_num [WalletManager.run, WalletManager.applyTransaction, WalletManager.init,
      Wallet.new, Balance.new, Wallet.deposit, Wallet.dispute, Wallet.charge_back,
      lookupA, insertA, eraseA]

/-- Witness for C7: charging back the open dispute of the post-dispute wallet. -/
theorem charge_back_effect_witness :
    lookupA 1 (⟨1, ⟨0, 100, 100⟩, false, [(1, 100)]⟩ : Wallet).open_disputes = some 100 ∧
    ∃ w', (⟨1, ⟨0, 100, 100⟩, false, [(1, 100)]⟩ : Wallet).charge_back 1 = .ok w' ∧
      w'.balance.held = (⟨1, ⟨0, 100, 100⟩, false, [(1, 100)]⟩ : Wallet).balance.held - 100 ∧
      w'.balance.total = (⟨1, ⟨0, 100, 100⟩, false, [(1, 100)]⟩ : Wallet).balance.total - 100 ∧
      w'.balance.available = (⟨1, ⟨0, 100, 100⟩, false, [(1, 100)]⟩ : Wallet).balance.available ∧
      w'.locked = true := by
  have h : lookupA 1 (⟨1, ⟨0, 100, 100⟩, false, [(1, 100)]⟩ : Wallet).open_disputes
      = some 100 := by simp [lookupA]
  exact ⟨h, charge_back_effect_and_scenario.1 _ 1 100 h⟩

/-- C8: a Resolve or ChargeBack event whose tx (id) is not in the account's
`open_disputes` fails with the corresponding dispute-not-found failure and
leaves the whole engine state (hence the account's balances and locked flag)
unchanged. -/
theorem resolve_charge_back_not_disputed_fail_unchanged
    (m : WalletManager) (c : Client) (t : TransactionId) (w : Wallet)
    (hw : lookupA c m.wallets = some w)
    (hd : lookupA t w.open_disputes = none) :
    m.applyTransaction (.Resolve c t) = (m, some ⟨w.client, t, msgSettleNotFound⟩) ∧
    m.applyTransaction (.ChargeBack c t) = (m, some ⟨w.client, t, msgChargeBackNotFound⟩) := by
  constructor <;>
    simp [WalletManager.applyTransaction, hw, Wallet.settle_dispute, Wallet.charge_back, hd]

/-- Witness for C8: resolve and chargeback of an undisputed tx on a funded wallet. -/
theorem resolve_charge_back_not_disputed_witness :
    lookupA 1 (WalletManager.mk [(1, ⟨1, ⟨100, 0, 100⟩, false, []⟩)] []).wallets
      = some (⟨1, ⟨100, 0, 100⟩, false, []⟩ : Wallet) ∧
    lookupA 7 (⟨1, ⟨100, 0, 100⟩, false, []⟩ : Wallet).open_disputes = none ∧
    (WalletManager.mk [(1, ⟨1, ⟨100, 0, 100⟩, false, []⟩)] []).applyTransaction (.Resolve 1 7)
      = (WalletManager.mk [(1, ⟨1, ⟨100, 0, 100⟩, false, []⟩)] [],
         some ⟨1, 7, msgSettleNotFound⟩) := by
  have hw : lookupA 1 (WalletManager.mk [(1, ⟨1, ⟨100, 0, 100⟩, false, []⟩)] []).wallets
      = some (⟨1, ⟨100, 0, 100⟩, false, []⟩ : Wallet) := by simp [lookupA]
  have hd : lookupA 7 (⟨1, ⟨100, 0, 100⟩, false, []⟩ : Wallet).open_disputes = none := by
    simp [lookupA]
  exact ⟨hw, hd,
    (resolve_charge_back_not_disputed_fail_unchanged _ 1 7 _ hw hd).1⟩

/-- C9: the locked flag is never consulted: every operation behaves on a wallet
with `locked := b` exactly as on the same wallet with the other flag value, the
flag merely being carried along (and `charge_back` overwrites it with `true`
regardless). -/
theorem locked_flag_never_consulted (w : Wallet) (b : Bool) (tx : TransactionId) (a : Amount) :
    ({ w with locked := b } : Wallet).deposit tx a = { w.deposit tx a with locked := b } ∧
    ({ w with locked := b } : Wallet).dispute tx a = { w.dispute tx a with locked := b } ∧
    ({ w with locked := b } : Wallet).withdraw tx a
      = (w.withdraw tx a).map (fun u => { u with locked := b }) ∧
    ({ w with locked := b } : Wallet).settle_dispute tx
      = (w.settle_dispute tx).map (fun u => { u with locked := b }) ∧
    ({ w with locked := b } : Wallet).charge_back tx = w.charge_back tx := by
  refine ⟨rfl, rfl, ?_, ?_, ?_⟩
  · by_cases h : w.balance.available ≥ a <;>
      simp [Wallet.withdraw, h, Except.map]
  · cases hd : lookupA tx w.open_disputes <;>
      simp [Wallet.settle_dispute, hd, Except.map]
  · cases hd : lookupA tx w.open_disputes <;>
      simp [Wallet.charge_back, hd]

/-- C10: `dispute` subtracts the journaled amount from available unconditionally,
and the accepted stream deposit(1,1,100); withdrawal(1,2,100); dispute(1,1)
leaves account 1 with a negative available balance. -/
theorem dispute_unconditional_subtraction_negative_available :
    (∀ (w : Wallet) (tx : TransactionId) (a : Amount),
      (w.dispute tx a).balance.available = w.balance.available - a) ∧
    lookupA 1 ((WalletManager.run WalletManager.init
        [.Deposit 1 1 100, .Withdrawal 1 2 100, .Dispute 1 1] true).1.wallets)
      = some (⟨1, ⟨-100, 100, 0⟩, false, [(1, 100)]⟩ : Wallet) ∧
    ((-100 : ℚ) < 0) := by
  refine ⟨fun w tx a => rfl, ?_, by norm_num⟩
  norm_num [WalletManager.run, WalletManager.applyTransaction, WalletManager.init,
    Wallet.new, Balance.new, Wallet.deposit, Wallet.withdraw, Wallet.dispute,
    lookupA, insertA, eraseA]

/-- C4: with the account present, a Withdrawal event succeeds iff
`available >= amount`; on success available and total decrease by the amount
and the withdrawal is journaled under (client, tx (id)); on failure the engine
returns InsufficientFunds and the whole state — wallets and journal alike — is
unchanged, so the failed withdrawal is never journaled and can never be
disputed. -/
theorem withdrawal_succeeds_iff_sufficient_available
    (m : WalletManager) (c : Client) (t : TransactionId) (a : Amount) (w : Wallet)
    (hw : lookupA c m.wallets = some w) :
    ((m.applyTransaction (.Withdrawal c t a)).2 = none ↔ w.balance.available ≥ a) ∧
    (w.balance.available ≥ a →
      m.applyTransaction (.Withdrawal c t a)
        = ({ wallets := insertA c { w with
               balance := { w.balance with
                            available := w.balance.available - a
                            total := w.balance.total - a } } m.wallets
             transaction_journal := insertA c
               (insertA t (.Withdrawal c t a)
                 ((lookupA c m.transaction_journal).getD [])) m.transaction_journal },
           none)) ∧
    (¬ w.balance.available ≥ a →
      m.applyTransaction (.Withdrawal c t a)
        = (m, some (Failure.insufficient_funds w.client t))) := by
  by_cases hge : w.balance.available ≥ a <;>
    simp [WalletManager.applyTransaction, hw, Wallet.withdraw, hge]

/-- Witness for C4: withdrawing 100 from an account holding 100. -/
theorem withdrawal_succeeds_iff_sufficient_witness :
    lookupA 1 (WalletManager.mk [(1, ⟨1, ⟨100, 0, 100⟩, false, []⟩)] []).wallets
      = some (⟨1, ⟨100, 0, 100⟩, false, []⟩ : Wallet) ∧
    (((WalletManager.mk [(1, ⟨1, ⟨100, 0, 100⟩, false, []⟩)] []).applyTransaction
        (.Withdrawal 1 2 100)).2 = none ↔
      (⟨1, ⟨100, 0, 100⟩, false, []⟩ : Wallet).balance.available ≥ 100) := by
  have hw : lookupA 1 (WalletManager.mk [(1, ⟨1, ⟨100, 0, 100⟩, false, []⟩)] []).wallets
      = some (⟨1, ⟨100, 0, 100⟩, false, []⟩ : Wallet) := by simp [lookupA]
  exact ⟨hw, (withdrawal_succeeds_iff_sufficient_available _ 1 2 100 _ hw).1⟩

theorem journalInvariant_init : JournalInvariant WalletManager.init := by
  intro c _
  simp [WalletManager.init, lookupA]

theorem journalInvariant_applyTransaction (m : WalletManager) (t : Transaction)
    (h : JournalInvariant m) : JournalInvariant (m.applyTransaction t).1 := by
  cases t with
  | Deposit client tx_id amount =>
    intro c hw
    simp only [WalletManager.applyTransaction, lookupA_insertA] at hw
    by_cases hc : client = c
    · rw [if_pos hc] at hw; exact absurd hw (by simp)
    · rw [if_neg hc] at hw
      have h0 := h c hw
      simp only [WalletManager.applyTransaction, lookupA_insertA]
      rw [if_neg hc]
      exact h0
  | Withdrawal client tx_id amount =>
    intro c hw
    cases hbase : lookupA client m.wallets with
    | none =>
      simp only [WalletManager.applyTransaction, hbase] at hw ⊢
      exact h c hw
    | some w0 =>
      by_cases hge : w0.balance.available ≥ amount
      · simp only [WalletManager.applyTransaction, hbase, Wallet.withdraw, if_pos hge,
          lookupA_insertA] at hw ⊢
        by_cases hc : client = c
        · rw [if_pos hc] at hw; exact absurd hw (by simp)
        · rw [if_neg hc] at hw
          rw [if_neg hc]
          exact h c hw
      · simp only [WalletManager.applyTransaction, hbase, Wallet.withdraw,
          if_neg hge] at hw ⊢
        exact h c hw
  | Dispute client tx_id =>
    intro c hw
    cases hj : (lookupA client m.transaction_journal).bind (lookupA tx_id) with
    | none =>
      simp only [WalletManager.applyTransaction, hj] at hw ⊢
      exact h c hw
    | some tj =>
      cases tj with
      | Deposit c' t' amount =>
        cases hbase : lookupA client m.wallets with
        | none =>
          simp only [WalletManager.applyTransaction, hj, hbase] at hw ⊢
          exact h c hw
        | some w0 =>
          simp only [WalletManager.applyTransaction, hj, hbase, lookupA_insertA] at hw ⊢
          by_cases hc : client = c
          · rw [if_pos hc] at hw; exact absurd hw (by simp)
          · rw [if_neg hc] at hw
            exact h c hw
      | Withdrawal c' t' amount =>
        simp only [WalletManager.applyTransaction, hj] at hw ⊢
        exact h c hw
      | Dispute c' t' =>
        simp only [WalletManager.applyTransaction, hj] at hw ⊢
        exact h c hw
      | Resolve c' t' =>
        simp only [WalletManager.applyTransaction, hj] at hw ⊢
        exact h c hw
      | ChargeBack c' t' =>
        simp only [WalletManager.applyTransaction, hj] at hw ⊢
        exact h c hw
  | Resolve client tx_id =>
    intro c hw
    cases hbase : lookupA client m.wallets with
    | none =>
      simp only [WalletManager.applyTransaction, hbase] at hw ⊢
      exact h c hw
    | some w0 =>
      cases hd : lookupA tx_id w0.open_disputes with
      | none =>
        simp only [WalletManager.applyTransaction, hbase, Wallet.settle_dispute,
          hd] at hw ⊢
        exact h c hw
      | some a =>
        simp only [WalletManager.applyTransaction, hbase, Wallet.settle_dispute, hd,
          lookupA_insertA] at hw ⊢
        by_cases hc : client = c
        · rw [if_pos hc] at hw; exact absurd hw (by simp)
        · rw [if_neg hc] at hw
          exact h c hw
  | ChargeBack client tx_id =>
    intro c hw
    cases hbase : lookupA client m.wallets with
    | none =>
      simp only [WalletManager.applyTransaction, hbase] at hw ⊢
      exact h c hw
    | some w0 =>
      cases hd : lookupA tx_id w0.open_disputes with
      | none =>
        simp only [WalletManager.applyTransaction, hbase, Wallet.charge_back,
          hd] at hw ⊢
        exact h c hw
      | some a =>
        simp only [WalletManager.applyTransaction, hbase, Wallet.charge_back, hd,
          lookupA_insertA] at hw ⊢
        by_cases hc : client = c
        · rw [if_pos hc] at hw; exact absurd hw (by simp)
        · rw [if_neg hc] at hw
          exact h c hw

theorem journalInvariant_run (evs : List Transaction) :
    ∀ (m : WalletManager) (sink : Bool), JournalInvariant m →
      JournalInvariant (WalletManager.run m evs sink).1 := by
  induction evs with
  | nil => intro m sink h; simpa [WalletManager.run] using h
  | cons e rest ih =>
    intro m sink h
    have hstep := journalInvariant_applyTransaction m e h
    simp only [WalletManager.run]
    split
    · exact ih _ _ hstep
    · split
      · simpa using ih _ _ hstep
      · simpa using hstep

/-- C5 (amended): the Dispute failure cases with the precedence the code
actually implements. The journal is consulted first, so the failure is
"transaction not found" whenever no journal entry exists for (client, tx (id)) —
in particular whenever the account is absent in any state reachable from the
empty initial state, since a client with journal entries always has a wallet;
it is "cannot dispute a withdrawal" when the journaled transaction is a
Withdrawal; and it is NoWallet only in the (unreachable-from-init) situation of
a journaled deposit for a client with no wallet. Every failure leaves the
engine state unchanged. -/
theorem dispute_failure_cases :
    (∀ (m : WalletManager) (c : Client) (t : TransactionId),
      ((lookupA c m.transaction_journal).bind (lookupA t) = none →
        m.applyTransaction (.Dispute c t) = (m, some ⟨c, t, msgDisputeTxNotFound⟩)) ∧
      (∀ (c' : Client) (t' : TransactionId) (a : Amount),
        (lookupA c m.transaction_journal).bind (lookupA t) = some (.Withdrawal c' t' a) →
        m.applyTransaction (.Dispute c t) = (m, some ⟨c, t, msgCantDisputeWithdraw⟩)) ∧
      (∀ (c' : Client) (t' : TransactionId) (a : Amount),
        (lookupA c m.transaction_journal).bind (lookupA t) = some (.Deposit c' t' a) →
        lookupA c m.wallets = none →
        m.applyTransaction (.Dispute c t) = (m, some (Failure.no_wallet c t)))) ∧
    (∀ (evs : List Transaction) (sink : Bool) (c : Client) (t : TransactionId),
      lookupA c ((WalletManager.run WalletManager.init evs sink).1.wallets) = none →
      ((WalletManager.run WalletManager.init evs sink).1).applyTransaction (.Dispute c t)
        = ((WalletManager.run WalletManager.init evs sink).1,
            some ⟨c, t, msgDisputeTxNotFound⟩)) := by
  have hcases : ∀ (m : WalletManager) (c : Client) (t : TransactionId),
      ((lookupA c m.transaction_journal).bind (lookupA t) = none →
        m.applyTransaction (.Dispute c t) = (m, some ⟨c, t, msgDisputeTxNotFound⟩)) ∧
      (∀ (c' : Client) (t' : TransactionId) (a : Amount),
        (lookupA c m.transaction_journal).bind (lookupA t) = some (.Withdrawal c' t' a) →
        m.applyTransaction (.Dispute c t) = (m, some ⟨c, t, msgCantDisputeWithdraw⟩)) ∧
      (∀ (c' : Client) (t' : TransactionId) (a : Amount),
        (lookupA c m.transaction_journal).bind (lookupA t) = some (.Deposit c' t' a) →
        lookupA c m.wallets = none →
        m.applyTransaction (.Dispute c t) = (m, some (Failure.no_wallet c t))) := by
    intro m c t
    refine ⟨?_, ?_, ?_⟩
    · intro hj
      simp [WalletManager.applyTransaction, hj]
    · intro c' t' a hj
      simp [WalletManager.applyTransaction, hj]
    · intro c' t' a hj hw
      simp [WalletManager.applyTransaction, hj, hw]
  refine ⟨hcases, ?_⟩
  intro evs sink c t hw
  have hji : JournalInvariant (WalletManager.run WalletManager.init evs sink).1 :=
    journalInvariant_run evs WalletManager.init sink journalInvariant_init
  have hj : lookupA c ((WalletManager.run WalletManager.init evs sink).1.transaction_journal)
      = none := hji c hw
  exact (hcases _ c t).1 (by simp [hj])

/-- Counterexample to C5 as stated: a Dispute for an absent account is rejected
with the journal-lookup failure "Transaction to dispute was not found!", not
with the NoWallet failure the claim requires for an absent account. -/
theorem dispute_absent_account_not_no_wallet :
    WalletManager.init.applyTransaction (.Dispute 1 1)
      = (WalletManager.init, some ⟨1, 1, msgDisputeTxNotFound⟩) ∧
    (⟨1, 1, msgDisputeTxNotFound⟩ : Failure) ≠ Failure.no_wallet 1 1 := by
  constructor
  · simp [WalletManager.applyTransaction, WalletManager.init, lookupA]
  · simp [Failure.no_wallet, msgDisputeTxNotFound, msgNoWallet]

/-- Witness for C5: the not-found case at the empty initial state, and the
reachable-state part after the singleton deposit stream for a different client. -/
theorem dispute_failure_cases_witness :
    (WalletManager.init.applyTransaction (.Dispute 1 1)
      = (WalletManager.init, some ⟨1, 1, msgDisputeTxNotFound⟩)) ∧
    (lookupA 2 ((WalletManager.run WalletManager.init [.Deposit 1 1 100] true).1.wallets)
        = none ∧
      ((WalletManager.run WalletManager.init [.Deposit 1 1 100] true).1).applyTransaction
          (.Dispute 2 5)
        = ((WalletManager.run WalletManager.init [.Deposit 1 1 100] true).1,
            some ⟨2, 5, msgDisputeTxNotFound⟩)) := by
  have h1 : (lookupA 1 WalletManager.init.transaction_journal).bind (lookupA 1) = none := by
    simp [WalletManager.init, lookupA]
  have h2 : lookupA 2 ((WalletManager.run WalletManager.init [.Deposit 1 1 100] true).1.wallets)
      = none := by
    norm_num [WalletManager.run, WalletManager.applyTransaction, WalletManager.init,
      Wallet.new, Balance.new, Wallet.deposit, lookupA, insertA, eraseA]
  exact ⟨(dispute_failure_cases.1 WalletManager.init 1 1).1 h1,
    h2, dispute_failure_cases.2 [.Deposit 1 1 100] true 2 5 h2⟩

theorem hasSettle_cons_false (e : Transaction) (rest : List Transaction)
    (h : hasSettle (e :: rest) = false) : hasSettle rest = false := by
  cases e with
  | Deposit c t a => simpa [hasSettle] using h
  | Withdrawal c t a => simpa [hasSettle] using h
  | Dispute c t => simpa [hasSettle] using h
  | Resolve c t => simp [hasSettle] at h
  | ChargeBack c t => simp [hasSettle] at h

theorem disputeKeys_nodup_tail (e : Transaction) (rest : List Transaction)
    (h : (disputeKeys (e :: rest)).Nodup) : (disputeKeys rest).Nodup := by
  cases e with
  | Deposit c t a => simpa [disputeKeys] using h
  | Withdrawal c t a => simpa [disputeKeys] using h
  | Dispute c t => exact (List.nodup_cons.mp (by simpa [disputeKeys] using h)).2
  | Resolve c t => simpa [disputeKeys] using h
  | ChargeBack c t => simpa [disputeKeys] using h

theorem heldInvariant_weaken {S T : List (Nat × Nat)} (m : WalletManager)
    (hsub : ∀ p, p ∈ T → p ∈ S) (h : HeldInvariant S m) : HeldInvariant T m :=
  fun c w hw =>
    ⟨(h c w hw).1, fun t a ha hmem => (h c w hw).2 t a ha (hsub _ hmem)⟩

theorem heldInvariant_step (m : WalletManager) (e : Transaction) (rest : List Transaction)
    (hset : hasSettle (e :: rest) = false)
    (hnd : (disputeKeys (e :: rest)).Nodup)
    (h : HeldInvariant (disputeKeys (e :: rest)) m) :
    HeldInvariant (disputeKeys rest) (m.applyTransaction e).1 := by
  cases e with
  | Deposit client tx_id amount =>
    have hS : disputeKeys (Transaction.Deposit client tx_id amount :: rest)
        = disputeKeys rest := by simp [disputeKeys]
    rw [hS] at h
    intro c w hw
    simp only [WalletManager.applyTransaction, lookupA_insertA] at hw
    by_cases hc : client = c
    · subst hc
      rw [if_pos rfl] at hw
      cases hbase : lookupA client m.wallets with
      | none =>
        rw [hbase] at hw
        simp only [Option.getD, Option.some.injEq] at hw
        subst hw
        constructor
        · simp [Wallet.deposit, Wallet.new, Balance.new, sumA]
        · intro t a ha
          simp [Wallet.deposit, Wallet.new, Balance.new, lookupA] at ha
      | some w0 =>
        rw [hbase] at hw
        simp only [Option.getD, Option.some.injEq] at hw
        subst hw
        obtain ⟨hsum, hkeys⟩ := h client w0 hbase
        constructor
        · simpa [Wallet.deposit] using hsum
        · intro t a ha
          exact hkeys t a (by simpa [Wallet.deposit] using ha)
    · rw [if_neg hc] at hw
      exact h c w hw
  | Withdrawal client tx_id amount =>
    have hS : disputeKeys (Transaction.Withdrawal client tx_id amount :: rest)
        = disputeKeys rest := by simp [disputeKeys]
    rw [hS] at h
    intro c w hw
    cases hbase : lookupA client m.wallets with
    | none =>
      simp only [WalletManager.applyTransaction, hbase] at hw
      exact h c w hw
    | some w0 =>
      by_cases hge : w0.balance.available ≥ amount
      · simp only [WalletManager.applyTransaction, hbase, Wallet.withdraw, if_pos hge,
          lookupA_insertA] at hw
        by_cases hc : client = c
        · subst hc
          rw [if_pos rfl] at hw
          simp only [Option.some.injEq] at hw
          subst hw
          obtain ⟨hsum, hkeys⟩ := h client w0 hbase
          constructor
          · simpa using hsum
          · intro t a ha
            exact hkeys t a (by simpa using ha)
        · rw [if_neg hc] at hw
          exact h c w hw
      · simp only [WalletManager.applyTransaction, hbase, Wallet.withdraw,
          if_neg hge] at hw
        exact h c w hw
  | Dispute client tx_id =>
    have hS : disputeKeys (Transaction.Dispute client tx_id :: rest)
        = (client, tx_id) :: disputeKeys rest := by simp [disputeKeys]
    rw [hS] at h hnd
    have hnotin : (client, tx_id) ∉ disputeKeys rest := (List.nodup_cons.mp hnd).1
    intro c w hw
    cases hj : (lookupA client m.transaction_journal).bind (lookupA tx_id) with
    | none =>
      simp only [WalletManager.applyTransaction, hj] at hw
      obtain ⟨hsum, hkeys⟩ := h c w hw
      exact ⟨hsum, fun t a ha hmem => hkeys t a ha (List.mem_cons_of_mem _ hmem)⟩
    | some tj =>
      cases tj with
      | Deposit c' t' amount =>
        cases hbase : lookupA client m.wallets with
        | none =>
          simp only [WalletManager.applyTransaction, hj, hbase] at hw
          obtain ⟨hsum, hkeys⟩ := h c w hw
          exact ⟨hsum, fun t a ha hmem => hkeys t a ha (List.mem_cons_of_mem _ hmem)⟩
        | some w0 =>
          simp only [WalletManager.applyTransaction, hj, hbase, lookupA_insertA] at hw
          obtain ⟨hsum0, hkeys0⟩ := h client w0 hbase
          by_cases hc : client = c
          · subst hc
            rw [if_pos rfl] at hw
            simp only [Option.some.injEq] at hw
            have hfresh : lookupA tx_id w0.open_disputes = none := by
              cases hfa : lookupA tx_id w0.open_disputes with
              | none => rfl
              | some a0 =>
                exact absurd (List.mem_cons_self _ _) (hkeys0 tx_id a0 hfa)
            subst hw
            constructor
            · simp only [Wallet.dispute]
              simp [sumA_insertA_fresh tx_id amount w0.open_disputes hfresh]
              linarith [hsum0]
            · intro t a ha
              simp only [Wallet.dispute, lookupA_insertA] at ha
              by_cases ht : tx_id = t
              · subst ht
                intro hmem
                exact hnotin hmem
              · rw [if_neg ht] at ha
                intro hmem
                exact hkeys0 t a ha (List.mem_cons_of_mem _ hmem)
          · rw [if_neg hc] at hw
            obtain ⟨hsum, hkeys⟩ := h c w hw
            exact ⟨hsum, fun t a ha hmem => hkeys t a ha (List.mem_cons_of_mem _ hmem)⟩
      | Withdrawal c' t' amount =>
        simp only [WalletManager.applyTransaction, hj] at hw
        obtain ⟨hsum, hkeys⟩ := h c w hw
        exact ⟨hsum, fun t a ha hmem => hkeys t a ha (List.mem_cons_of_mem _ hmem)⟩
      | Dispute c' t' =>
        simp only [WalletManager.applyTransaction, hj] at hw
        obtain ⟨hsum, hkeys⟩ := h c w hw
        exact ⟨hsum, fun t a ha hmem => hkeys t a ha (List.mem_cons_of_mem _ hmem)⟩
      | Resolve c' t' =>
        simp only [WalletManager.applyTransaction, hj] at hw
        obtain ⟨hsum, hkeys⟩ := h c w hw
        exact ⟨hsum, fun t a ha hmem => hkeys t a ha (List.mem_cons_of_mem _ hmem)⟩
      | ChargeBack c' t' =>
        simp only [WalletManager.applyTransaction, hj] at hw
        obtain ⟨hsum, hkeys⟩ := h c w hw
        exact ⟨hsum, fun t a ha hmem => hkeys t a ha (List.mem_cons_of_mem _ hmem)⟩
  | Resolve client tx_id => simp [hasSettle] at hset
  | ChargeBack client tx_id => simp [hasSettle] at hset

theorem heldInvariant_run (evs : List Transaction) :
    ∀ (m : WalletManager) (sink : Bool), hasSettle evs = false →
      (disputeKeys evs).Nodup → HeldInvariant (disputeKeys evs) m →
      HeldInvariant [] (WalletManager.run m evs sink).1 := by
  induction evs with
  | nil =>
    intro m sink _ _ h
    simp only [WalletManager.run]
    exact heldInvariant_weaken m (by simp) h
  | cons e rest ih =>
    intro m sink hset hnd h
    have hstep := heldInvariant_step m e rest hset hnd h
    have hset' := hasSettle_cons_false e rest hset
    have hnd' := disputeKeys_nodup_tail e rest hnd
    simp only [WalletManager.run]
    split
    · exact ih _ _ hset' hnd' hstep
    · split
      · simpa using ih _ _ hset' hnd' hstep
      · simpa using heldInvariant_weaken _ (by simp) hstep

/-- Exact-arithmetic counterpart of the held/open-disputes relation: for streams
without Resolve or ChargeBack events that never dispute the same
(client, tx (id)) twice, and with Amount arithmetic exact, every account's held
balance equals the exact sum of its `open_disputes` amounts after every applied
event. The program with f32 rounding satisfies only the f32-sum version of this
statement (`held_eq_f32_sum_open_disputes_of_no_settles`): held accumulates
rounded, so it can leave the exact sum on legal inputs, e.g. deposits of
16777215 and 0.75 both disputed give f32 held = 16777216 against an exact sum
of 16777215.75. -/
theorem held_eq_sum_open_disputes_of_no_settles
    (evs : List Transaction) (sink : Bool)
    (hset : hasSettle evs = false) (hnd : (disputeKeys evs).Nodup)
    (c : Client) (w : Wallet)
    (hw : lookupA c ((WalletManager.run WalletManager.init evs sink).1.wallets) = some w) :
    w.balance.held = sumA w.open_disputes := by
  have h0 : HeldInvariant (disputeKeys evs) WalletManager.init := by
    intro c' w' hw'
    simp [WalletManager.init, lookupA] at hw'
  exact ((heldInvariant_run evs WalletManager.init sink hset hnd h0) c w hw).1

/-- Counterexample to C2 as stated: after deposit(1,1,100); dispute(1,1);
resolve(1,1) the held balance is 0 but the (never-removed) `open_disputes`
entry still sums to 100. Every amount in this trace is exactly representable
and every sum exact in f32, so the exact-arithmetic run coincides with the
program's. -/
theorem held_ne_sum_open_disputes_after_resolve :
    lookupA 1 ((WalletManager.run WalletManager.init
        [.Deposit 1 1 100, .Dispute 1 1, .Resolve 1 1] true).1.wallets)
      = some (⟨1, ⟨100, 0, 100⟩, false, [(1, 100)]⟩ : Wallet) ∧
    (⟨1, ⟨100, 0, 100⟩, false, [(1, 100)]⟩ : Wallet).balance.held
      ≠ sumA (⟨1, ⟨100, 0, 100⟩, false, [(1, 100)]⟩ : Wallet).open_disputes := by
  constructor
  · norm_num [WalletManager.run, WalletManager.applyTransaction, WalletManager.init,
      Wallet.new, Balance.new, Wallet.deposit, Wallet.dispute, Wallet.settle_dispute,
      lookupA, insertA, eraseA]
  · norm_num [sumA]

/-- Witness for the exact-arithmetic held/open-disputes relation. -/
theorem held_eq_sum_open_disputes_witness :
    hasSettle [Transaction.Deposit 1 1 100, Transaction.Dispute 1 1] = false ∧
    (disputeKeys [Transaction.Deposit 1 1 100, Transaction.Dispute 1 1]).Nodup ∧
    lookupA 1 ((WalletManager.run WalletManager.init
        [.Deposit 1 1 100, .Dispute 1 1] true).1.wallets)
      = some (⟨1, ⟨0, 100, 100⟩, false, [(1, 100)]⟩ : Wallet) ∧
    (⟨1, ⟨0, 100, 100⟩, false, [(1, 100)]⟩ : Wallet).balance.held
      = sumA (⟨1, ⟨0, 100, 100⟩, false, [(1, 100)]⟩ : Wallet).open_disputes := by
  have hset : hasSettle [Transaction.Deposit 1 1 100, Transaction.Dispute 1 1] = false := by
    simp [hasSettle]
  have hnd : (disputeKeys [Transaction.Deposit 1 1 100, Transaction.Dispute 1 1]).Nodup := by
    simp [disputeKeys]
  have hw : lookupA 1 ((WalletManager.run WalletManager.init
      [.Deposit 1 1 100, .Dispute 1 1] true).1.wallets)
      = some (⟨1, ⟨0, 100, 100⟩, false, [(1, 100)]⟩ : Wallet) := by
    norm_num [WalletManager.run, WalletManager.applyTransaction, WalletManager.init,
      Wallet.new, Balance.new, Wallet.deposit, Wallet.dispute, lookupA, insertA, eraseA]
  exact ⟨hset, hnd, hw,
    held_eq_sum_open_disputes_of_no_settles _ true hset hnd 1 _ hw⟩

/-! Lemmas for evaluating the f32 rounding at concrete values. -/

theorem roundEven_floor (r : ℚ) (n : ℤ) (hn : ⌊r⌋ = n) (h : r - n < 1/2) :
    roundEven r = n := by
  unfold roundEven
  rw [hn, if_pos h]

theorem roundEven_ceil (r : ℚ) (n : ℤ) (hn : ⌊r⌋ = n) (h : 1/2 < r - n) :
    roundEven r = n + 1 := by
  unfold roundEven
  rw [hn, if_neg (by linarith), if_pos h]

theorem roundEven_tie (r : ℚ) (n : ℤ) (hn : ⌊r⌋ = n) (h : r - n = 1/2) (he : n % 2 = 0) :
    roundEven r = n := by
  unfold roundEven
  rw [hn, if_neg (by linarith), if_neg (by linarith), if_pos he]

theorem int_log_eq (y : ℚ) (k : ℤ) (h0 : 0 < y)
    (h1 : (2 : ℚ) ^ k ≤ y) (h2 : y < (2 : ℚ) ^ (k + 1)) :
    Int.log 2 y = k := by
  refine le_antisymm ?_ ?_
  · have := (Int.lt_zpow_iff_log_lt (b := 2) one_lt_two h0).mp h2
    omega
  · exact (Int.zpow_le_iff_le_log (b := 2) one_lt_two h0).mp h1

theorem flAux_eval (y : ℚ) (e : ℤ) (h0 : 0 < y)
    (h1 : (2 : ℚ) ^ (e + 23) ≤ y) (h2 : y < (2 : ℚ) ^ (e + 24)) :
    flAux y = (roundEven (y / 2 ^ e) : ℚ) * 2 ^ e := by
  have hlog : Int.log 2 y = e + 23 := by
    refine int_log_eq y (e + 23) h0 h1 ?_
    have h24 : e + 23 + 1 = e + 24 := by ring
    rw [h24]
    exact h2
  rw [flAux, hlog]
  have h23 : e + 23 - 23 = e := by ring
  rw [h23]

theorem fl_of_pos (x : ℚ) (h : 0 < x) : fl x = flAux x := by
  simp [fl, h.ne', not_lt.mpr h.le]

/-! The seven f32 additions and subtractions of the invariant-breaking stream
deposit(895795.75); deposit(13126810); dispute; deposit(20317348);
withdrawal(32246858). The decimal amount 895795.75 is written 3583183 / 4. -/

theorem addF_dep1 : addF 0 (3583183 / 4 : ℚ) = 3583183 / 4 := by
  show fl (0 + 3583183 / 4 : ℚ) = 3583183 / 4
  rw [show (0 + 3583183 / 4 : ℚ) = 3583183 / 4 by norm_num]
  rw [fl_of_pos _ (by norm_num), flAux_eval _ (-4) (by norm_num) (by norm_num) (by norm_num)]
  rw [show (3583183 / 4 : ℚ) / 2 ^ (-4 : ℤ) = 14332732 by norm_num]
  rw [roundEven_floor _ 14332732 (by norm_num [Int.floor_eq_iff]) (by norm_num)]
  norm_num

theorem addF_dep2 : addF (3583183 / 4 : ℚ) 13126810 = 14022606 := by
  show fl (3583183 / 4 + 13126810 : ℚ) = 14022606
  rw [show (3583183 / 4 + 13126810 : ℚ) = 56090423 / 4 by norm_num]
  rw [fl_of_pos _ (by norm_num), flAux_eval _ 0 (by norm_num) (by norm_num) (by norm_num)]
  rw [show (56090423 / 4 : ℚ) / 2 ^ (0 : ℤ) = 56090423 / 4 by norm_num]
  rw [roundEven_ceil _ 14022605 (by norm_num [Int.floor_eq_iff]) (by norm_num)]
  norm_num

theorem subF_disp1 : subF (14022606 : ℚ) (3583183 / 4) = 13126810 := by
  show fl (14022606 - 3583183 / 4 : ℚ) = 13126810
  rw [show (14022606 - 3583183 / 4 : ℚ) = 52507241 / 4 by norm_num]
  rw [fl_of_pos _ (by norm_num), flAux_eval _ 0 (by norm_num) (by norm_num) (by norm_num)]
  rw [show (52507241 / 4 : ℚ) / 2 ^ (0 : ℤ) = 52507241 / 4 by norm_num]
  rw [roundEven_floor _ 13126810 (by norm_num [Int.floor_eq_iff]) (by norm_num)]
  norm_num

theorem addF_dep3_avail : addF (13126810 : ℚ) 20317348 = 33444158 := by
  show fl (13126810 + 20317348 : ℚ) = 33444158
  rw [show (13126810 + 20317348 : ℚ) = 33444158 by norm_num]
  rw [fl_of_pos _ (by norm_num), flAux_eval _ 1 (by norm_num) (by norm_num) (by norm_num)]
  rw [show (33444158 : ℚ) / 2 ^ (1 : ℤ) = 16722079 by norm_num]
  rw [roundEven_floor _ 16722079 (by norm_num [Int.floor_eq_iff]) (by norm_num)]
  norm_num

theorem addF_dep3_total : addF (14022606 : ℚ) 20317348 = 34339952 := by
  show fl (14022606 + 20317348 : ℚ) = 34339952
  rw [show (14022606 + 20317348 : ℚ) = 34339954 by norm_num]
  rw [fl_of_pos _ (by norm_num), flAux_eval _ 2 (by norm_num) (by norm_num) (by norm_num)]
  rw [show (34339954 : ℚ) / 2 ^ (2 : ℤ) = 17169977 / 2 by norm_num]
  rw [roundEven_tie _ 8584988 (by norm_num [Int.floor_eq_iff]) (by norm_num) (by norm_num)]
  norm_num

theorem subF_wd_avail : subF (33444158 : ℚ) 32246858 = 1197300 := by
  show fl (33444158 - 32246858 : ℚ) = 1197300
  rw [show (33444158 - 32246858 : ℚ) = 1197300 by norm_num]
  rw [fl_of_pos _ (by norm_num), flAux_eval _ (-3) (by norm_num) (by norm_num) (by norm_num)]
  rw [show (1197300 : ℚ) / 2 ^ (-3 : ℤ) = 9578400 by norm_num]
  rw [roundEven_floor _ 9578400 (by norm_num [Int.floor_eq_iff]) (by norm_num)]
  norm_num

theorem subF_wd_total : subF (34339952 : ℚ) 32246858 = 2093094 := by
  show fl (34339952 - 32246858 : ℚ) = 2093094
  rw [show (34339952 - 32246858 : ℚ) = 2093094 by norm_num]
  rw [fl_of_pos _ (by norm_num), flAux_eval _ (-3) (by norm_num) (by norm_num) (by norm_num)]
  rw [show (2093094 : ℚ) / 2 ^ (-3 : ℤ) = 16744752 by norm_num]
  rw [roundEven_floor _ 16744752 (by norm_num [Int.floor_eq_iff]) (by norm_num)]
  norm_num

theorem addF_hundred : addF 0 (100 : ℚ) = 100 := by
  show fl (0 + 100 : ℚ) = 100
  rw [show (0 + 100 : ℚ) = 100 by norm_num]
  rw [fl_of_pos _ (by norm_num), flAux_eval _ (-17) (by norm_num) (by norm_num) (by norm_num)]
  rw [show (100 : ℚ) / 2 ^ (-17 : ℤ) = 13107200 by norm_num]
  rw [roundEven_floor _ 13107200 (by norm_num [Int.floor_eq_iff]) (by norm_num)]
  norm_num

theorem subF_hundred : subF (100 : ℚ) 100 = 0 := by
  show fl (100 - 100 : ℚ) = 0
  rw [show (100 - 100 : ℚ) = 0 by norm_num]
  simp [fl]

theorem runF_cons_ok (m m' : WalletManager) (e : Transaction) (rest : List Transaction)
    (sink : Bool) (h : m.applyTransactionF e = (m', none)) :
    WalletManager.runF m (e :: rest) sink = WalletManager.runF m' rest sink := by
  conv_lhs => rw [WalletManager.runF.eq_def]
  simp only [h]

/-- C1: the claimed invariant `total = available + held` is FALSE of the program.
In the source's f32 arithmetic the accepted stream deposit(1,1,895795.75);
deposit(1,2,13126810); dispute(1,1); deposit(1,3,20317348);
withdrawal(1,4,32246858) — every amount an exactly representable f32 value —
ends with available = 1197300, held = 895795.75 (= 3583183 / 4) and
total = 2093094, so total differs from available + held = 2093095.75 by the
rounding of the tie fl(14022606 + 20317348) = 34339952. The spec's fixed-point
reading of Amount (under which the invariant does hold after every applied
event, `run_total_eq_available_add_held`) is the intent; the f32 representation
is the slip. -/
theorem f32_run_total_ne_available_add_held :
    lookupA 1 ((WalletManager.runF WalletManager.init
        [.Deposit 1 1 (3583183 / 4), .Deposit 1 2 13126810, .Dispute 1 1,
         .Deposit 1 3 20317348, .Withdrawal 1 4 32246858] true).1.wallets)
      = some (⟨1, ⟨1197300, 3583183 / 4, 2093094⟩, false, [(1, 3583183 / 4)]⟩ : Wallet) ∧
    (⟨1, ⟨1197300, 3583183 / 4, 2093094⟩, false, [(1, 3583183 / 4)]⟩ : Wallet).balance.total
      ≠ (⟨1, ⟨1197300, 3583183 / 4, 2093094⟩, false, [(1, 3583183 / 4)]⟩ : Wallet).balance.available
        + (⟨1, ⟨1197300, 3583183 / 4, 2093094⟩, false, [(1, 3583183 / 4)]⟩ : Wallet).balance.held := by
  have s1 : WalletManager.applyTransactionF (WalletManager.mk [] [])
      (.Deposit 1 1 (3583183 / 4))
      = (WalletManager.mk [(1, ⟨1, ⟨3583183 / 4, 0, 3583183 / 4⟩, false, []⟩)]
          [(1, [(1, .Deposit 1 1 (3583183 / 4))])], none) := by
    norm_num [WalletManager.applyTransactionF, Wallet.new, Balance.new, Wallet.depositF,
      lookupA, insertA, eraseA, addF_dep1]
  have s2 : WalletManager.applyTransactionF
      (WalletManager.mk [(1, ⟨1, ⟨3583183 / 4, 0, 3583183 / 4⟩, false, []⟩)]
        [(1, [(1, .Deposit 1 1 (3583183 / 4))])])
      (.Deposit 1 2 13126810)
      = (WalletManager.mk [(1, ⟨1, ⟨14022606, 0, 14022606⟩, false, []⟩)]
          [(1, [(2, .Deposit 1 2 13126810), (1, .Deposit 1 1 (3583183 / 4))])], none) := by
    norm_num [WalletManager.applyTransactionF, Wallet.depositF,
      lookupA, insertA, eraseA, addF_dep2]
  have s3 : WalletManager.applyTransactionF
      (WalletManager.mk [(1, ⟨1, ⟨14022606, 0, 14022606⟩, false, []⟩)]
        [(1, [(2, .Deposit 1 2 13126810), (1, .Deposit 1 1 (3583183 / 4))])])
      (.Dispute 1 1)
      = (WalletManager.mk
          [(1, ⟨1, ⟨13126810, 3583183 / 4, 14022606⟩, false, [(1, 3583183 / 4)]⟩)]
          [(1, [(2, .Deposit 1 2 13126810), (1, .Deposit 1 1 (3583183 / 4))])], none) := by
    norm_num [WalletManager.applyTransactionF, Wallet.disputeF,
      lookupA, insertA, eraseA, addF_dep1, subF_disp1]
  have s4 : WalletManager.applyTransactionF
      (WalletManager.mk
        [(1, ⟨1, ⟨13126810, 3583183 / 4, 14022606⟩, false, [(1, 3583183 / 4)]⟩)]
        [(1, [(2, .Deposit 1 2 13126810), (1, .Deposit 1 1 (3583183 / 4))])])
      (.Deposit 1 3 20317348)
      = (WalletManager.mk
          [(1, ⟨1, ⟨33444158, 3583183 / 4, 34339952⟩, false, [(1, 3583183 / 4)]⟩)]
          [(1, [(3, .Deposit 1 3 20317348), (2, .Deposit 1 2 13126810),
                (1, .Deposit 1 1 (3583183 / 4))])], none) := by
    norm_num [WalletManager.applyTransactionF, Wallet.depositF,
      lookupA, insertA, eraseA, addF_dep3_avail, addF_dep3_total]
  have s5 : WalletManager.applyTransactionF
      (WalletManager.mk
        [(1, ⟨1, ⟨33444158, 3583183 / 4, 34339952⟩, false, [(1, 3583183 / 4)]⟩)]
        [(1, [(3, .Deposit 1 3 20317348), (2, .Deposit 1 2 13126810),
              (1, .Deposit 1 1 (3583183 / 4))])])
      (.Withdrawal 1 4 32246858)
      = (WalletManager.mk
          [(1, ⟨1, ⟨1197300, 3583183 / 4, 2093094⟩, false, [(1, 3583183 / 4)]⟩)]
          [(1, [(4, .Withdrawal 1 4 32246858), (3, .Deposit 1 3 20317348),
                (2, .Deposit 1 2 13126810), (1, .Deposit 1 1 (3583183 / 4))])], none) := by
    norm_num [WalletManager.applyTransactionF, Wallet.withdrawF,
      lookupA, insertA, eraseA, subF_wd_avail, subF_wd_total]
  have hrun : WalletManager.runF WalletManager.init
      [.Deposit 1 1 (3583183 / 4), .Deposit 1 2 13126810, .Dispute 1 1,
       .Deposit 1 3 20317348, .Withdrawal 1 4 32246858] true
      = (WalletManager.mk
          [(1, ⟨1, ⟨1197300, 3583183 / 4, 2093094⟩, false, [(1, 3583183 / 4)]⟩)]
          [(1, [(4, .Withdrawal 1 4 32246858), (3, .Deposit 1 3 20317348),
                (2, .Deposit 1 2 13126810), (1, .Deposit 1 1 (3583183 / 4))])], []) := by
    rw [show WalletManager.init = WalletManager.mk [] [] from rfl]
    rw [runF_cons_ok _ _ _ _ _ s1, runF_cons_ok _ _ _ _ _ s2, runF_cons_ok _ _ _ _ _ s3,
      runF_cons_ok _ _ _ _ _ s4, runF_cons_ok _ _ _ _ _ s5]
    rfl
  constructor
  · rw [hrun]
    norm_num [lookupA]
  · show (2093094 : ℚ) ≠ 1197300 + 3583183 / 4
    norm_num

theorem sumF_insertA_fresh (t : TransactionId) (a : Amount)
    (l : List (TransactionId × Amount)) (h : lookupA t l = none) :
    sumF (insertA t a l) = addF (sumF l) a := by
  simp [insertA, sumF, eraseA_eq_self t l h]

theorem heldInvariantF_weaken {S T : List (Nat × Nat)} (m : WalletManager)
    (hsub : ∀ p, p ∈ T → p ∈ S) (h : HeldInvariantF S m) : HeldInvariantF T m :=
  fun c w hw =>
    ⟨(h c w hw).1, fun t a ha hmem => (h c w hw).2 t a ha (hsub _ hmem)⟩

theorem heldInvariantF_step (m : WalletManager) (e : Transaction) (rest : List Transaction)
    (hset : hasSettle (e :: rest) = false)
    (hnd : (disputeKeys (e :: rest)).Nodup)
    (h : HeldInvariantF (disputeKeys (e :: rest)) m) :
    HeldInvariantF (disputeKeys rest) (m.applyTransactionF e).1 := by
  cases e with
  | Deposit client tx_id amount =>
    have hS : disputeKeys (Transaction.Deposit client tx_id amount :: rest)
        = disputeKeys rest := by simp [disputeKeys]
    rw [hS] at h
    intro c w hw
    simp only [WalletManager.applyTransactionF, lookupA_insertA] at hw
    by_cases hc : client = c
    · subst hc
      rw [if_pos rfl] at hw
      cases hbase : lookupA client m.wallets with
      | none =>
        rw [hbase] at hw
        simp only [Option.getD, Option.some.injEq] at hw
        subst hw
        constructor
        · simp [Wallet.depositF, Wallet.new, Balance.new, sumF]
        · intro t a ha
          simp [Wallet.depositF, Wallet.new, Balance.new, lookupA] at ha
      | some w0 =>
        rw [hbase] at hw
        simp only [Option.getD, Option.some.injEq] at hw
        subst hw
        obtain ⟨hsum, hkeys⟩ := h client w0 hbase
        constructor
        · simpa [Wallet.depositF] using hsum
        · intro t a ha
          exact hkeys t a (by simpa [Wallet.depositF] using ha)
    · rw [if_neg hc] at hw
      exact h c w hw
  | Withdrawal client tx_id amount =>
    have hS : disputeKeys (Transaction.Withdrawal client tx_id amount :: rest)
        = disputeKeys rest := by simp [disputeKeys]
    rw [hS] at h
    intro c w hw
    cases hbase : lookupA client m.wallets with
    | none =>
      simp only [WalletManager.applyTransactionF, hbase] at hw
      exact h c w hw
    | some w0 =>
      by_cases hge : w0.balance.available ≥ amount
      · simp only [WalletManager.applyTransactionF, hbase, Wallet.withdrawF, if_pos hge,
          lookupA_insertA] at hw
        by_cases hc : client = c
        · subst hc
          rw [if_pos rfl] at hw
          simp only [Option.some.injEq] at hw
          subst hw
          obtain ⟨hsum, hkeys⟩ := h client w0 hbase
          constructor
          · simpa using hsum
          · intro t a ha
            exact hkeys t a (by simpa using ha)
        · rw [if_neg hc] at hw
          exact h c w hw
      · simp only [WalletManager.applyTransactionF, hbase, Wallet.withdrawF,
          if_neg hge] at hw
        exact h c w hw
  | Dispute client tx_id =>
    have hS : disputeKeys (Transaction.Dispute client tx_id :: rest)
        = (client, tx_id) :: disputeKeys rest := by simp [disputeKeys]
    rw [hS] at h hnd
    have hnotin : (client, tx_id) ∉ disputeKeys rest := (List.nodup_cons.mp hnd).1
    intro c w hw
    cases hj : (lookupA client m.transaction_journal).bind (lookupA tx_id) with
    | none =>
      simp only [WalletManager.applyTransactionF, hj] at hw
      obtain ⟨hsum, hkeys⟩ := h c w hw
      exact ⟨hsum, fun t a ha hmem => hkeys t a ha (List.mem_cons_of_mem _ hmem)⟩
    | some tj =>
      cases tj with
      | Deposit c' t' amount =>
        cases hbase : lookupA client m.wallets with
        | none =>
          simp only [WalletManager.applyTransactionF, hj, hbase] at hw
          obtain ⟨hsum, hkeys⟩ := h c w hw
          exact ⟨hsum, fun t a ha hmem => hkeys t a ha (List.mem_cons_of_mem _ hmem)⟩
        | some w0 =>
          simp only [WalletManager.applyTransactionF, hj, hbase, lookupA_insertA] at hw
          obtain ⟨hsum0, hkeys0⟩ := h client w0 hbase
          by_cases hc : client = c
          · subst hc
            rw [if_pos rfl] at hw
            simp only [Option.some.injEq] at hw
            have hfresh : lookupA tx_id w0.open_disputes = none := by
              cases hfa : lookupA tx_id w0.open_disputes with
              | none => rfl
              | some a0 =>
                exact absurd (List.mem_cons_self _ _) (hkeys0 tx_id a0 hfa)
            subst hw
            constructor
            · simp only [Wallet.disputeF]
              simp [sumF_insertA_fresh tx_id amount w0.open_disputes hfresh]
              rw [hsum0]
            · intro t a ha
              simp only [Wallet.disputeF, lookupA_insertA] at ha
              by_cases ht : tx_id = t
              · subst ht
                intro hmem
                exact hnotin hmem
              · rw [if_neg ht] at ha
                intro hmem
                exact hkeys0 t a ha (List.mem_cons_of_mem _ hmem)
          · rw [if_neg hc] at hw
            obtain ⟨hsum, hkeys⟩ := h c w hw
            exact ⟨hsum, fun t a ha hmem => hkeys t a ha (List.mem_cons_of_mem _ hmem)⟩
      | Withdrawal c' t' amount =>
        simp only [WalletManager.applyTransactionF, hj] at hw
        obtain ⟨hsum, hkeys⟩ := h c w hw
        exact ⟨hsum, fun t a ha hmem => hkeys t a ha (List.mem_cons_of_mem _ hmem)⟩
      | Dispute c' t' =>
        simp only [WalletManager.applyTransactionF, hj] at hw
        obtain ⟨hsum, hkeys⟩ := h c w hw
        exact ⟨hsum, fun t a ha hmem => hkeys t a ha (List.mem_cons_of_mem _ hmem)⟩
      | Resolve c' t' =>
        simp only [WalletManager.applyTransactionF, hj] at hw
        obtain ⟨hsum, hkeys⟩ := h c w hw
        exact ⟨hsum, fun t a ha hmem => hkeys t a ha (List.mem_cons_of_mem _ hmem)⟩
      | ChargeBack c' t' =>
        simp only [WalletManager.applyTransactionF, hj] at hw
        obtain ⟨hsum, hkeys⟩ := h c w hw
        exact ⟨hsum, fun t a ha hmem => hkeys t a ha (List.mem_cons_of_mem _ hmem)⟩
  | Resolve client tx_id => simp [hasSettle] at hset
  | ChargeBack client tx_id => simp [hasSettle] at hset

theorem heldInvariantF_run (evs : List Transaction) :
    ∀ (m : WalletManager) (sink : Bool), hasSettle evs = false →
      (disputeKeys evs).Nodup → HeldInvariantF (disputeKeys evs) m →
      HeldInvariantF [] (WalletManager.runF m evs sink).1 := by
  induction evs with
  | nil =>
    intro m sink _ _ h
    simp only [WalletManager.runF]
    exact heldInvariantF_weaken m (by simp) h
  | cons e rest ih =>
    intro m sink hset hnd h
    have hstep := heldInvariantF_step m e rest hset hnd h
    have hset' := hasSettle_cons_false e rest hset
    have hnd' := disputeKeys_nodup_tail e rest hnd
    simp only [WalletManager.runF]
    split
    · exact ih _ _ hset' hnd' hstep
    · split
      · simpa using ih _ _ hset' hnd' hstep
      · simpa using heldInvariantF_weaken _ (by simp) hstep

/-- C2 (amended): for streams that contain no Resolve or ChargeBack event and
never dispute the same (client, tx (id)) twice, every account's held balance
equals the sum of the amounts in its `open_disputes` map with the sum computed
as the program computes it — in f32 arithmetic, oldest dispute first — after
every applied event. Both amendments are forced by the code: settlement moves
held but never removes the `open_disputes` entry and a repeated dispute
re-inserts an existing key while adding to held (see the counterexample,
`held_ne_sum_open_disputes_after_resolve`), and f32 rounding makes held drift
from the exact sum (deposits of 16777215 and 0.75 both disputed give
held = 16777216 against an exact sum of 16777215.75). -/
theorem held_eq_f32_sum_open_disputes_of_no_settles
    (evs : List Transaction) (sink : Bool)
    (hset : hasSettle evs = false) (hnd : (disputeKeys evs).Nodup)
    (c : Client) (w : Wallet)
    (hw : lookupA c ((WalletManager.runF WalletManager.init evs sink).1.wallets) = some w) :
    w.balance.held = sumF w.open_disputes := by
  have h0 : HeldInvariantF (disputeKeys evs) WalletManager.init := by
    intro c' w' hw'
    simp [WalletManager.init, lookupA] at hw'
  exact ((heldInvariantF_run evs WalletManager.init sink hset hnd h0) c w hw).1

/-- Witness for C2 (amended): the settlement-free stream deposit(1,1,100);
dispute(1,1) under the f32 engine. -/
theorem held_eq_f32_sum_open_disputes_witness :
    hasSettle [Transaction.Deposit 1 1 100, Transaction.Dispute 1 1] = false ∧
    (disputeKeys [Transaction.Deposit 1 1 100, Transaction.Dispute 1 1]).Nodup ∧
    lookupA 1 ((WalletManager.runF WalletManager.init
        [.Deposit 1 1 100, .Dispute 1 1] true).1.wallets)
      = some (⟨1, ⟨0, 100, 100⟩, false, [(1, 100)]⟩ : Wallet) ∧
    (⟨1, ⟨0, 100, 100⟩, false, [(1, 100)]⟩ : Wallet).balance.held
      = sumF (⟨1, ⟨0, 100, 100⟩, false, [(1, 100)]⟩ : Wallet).open_disputes := by
  have hset : hasSettle [Transaction.Deposit 1 1 100, Transaction.Dispute 1 1] = false := by
    simp [hasSettle]
  have hnd : (disputeKeys [Transaction.Deposit 1 1 100, Transaction.Dispute 1 1]).Nodup := by
    simp [disputeKeys]
  have t1 : WalletManager.applyTransactionF (WalletManager.mk [] []) (.Deposit 1 1 100)
      = (WalletManager.mk [(1, ⟨1, ⟨100, 0, 100⟩, false, []⟩)]
          [(1, [(1, .Deposit 1 1 100)])], none) := by
    norm_num [WalletManager.applyTransactionF, Wallet.new, Balance.new, Wallet.depositF,
      lookupA, insertA, eraseA, addF_hundred]
  have t2 : WalletManager.applyTransactionF
      (WalletManager.mk [(1, ⟨1, ⟨100, 0, 100⟩, false, []⟩)] [(1, [(1, .Deposit 1 1 100)])])
      (.Dispute 1 1)
      = (WalletManager.mk [(1, ⟨1, ⟨0, 100, 100⟩, false, [(1, 100)]⟩)]
          [(1, [(1, .Deposit 1 1 100)])], none) := by
    norm_num [WalletManager.applyTransactionF, Wallet.disputeF,
      lookupA, insertA, eraseA, addF_hundred, subF_hundred]
  have hw : lookupA 1 ((WalletManager.runF WalletManager.init
      [.Deposit 1 1 100, .Dispute 1 1] true).1.wallets)
      = some (⟨1, ⟨0, 100, 100⟩, false, [(1, 100)]⟩ : Wallet) := by
    have hrun : WalletManager.runF WalletManager.init
        [.Deposit 1 1 100, .Dispute 1 1] true
        = (WalletManager.mk [(1, ⟨1, ⟨0, 100, 100⟩, false, [(1, 100)]⟩)]
            [(1, [(1, .Deposit 1 1 100)])], []) := by
      rw [show WalletManager.init = WalletManager.mk [] [] from rfl]
      rw [runF_cons_ok _ _ _ _ _ t1, runF_cons_ok _ _ _ _ _ t2]
      rfl
    rw [hrun]
    norm_num [lookupA]
  exact ⟨hset, hnd, hw,
    held_eq_f32_sum_open_disputes_of_no_settles _ true hset hnd 1 _ hw⟩

end WalletMock
